import Mathlib

/-!
Verification development for the IMQS logscraper (Go).

The definitions below are a shallow embedding of the program's data model and
operations, translated from the Go sources:

* `scraper.go` — `commonErrorLog.tick`/`reset`, `LogSource` state, `Scraper.scan`,
  `Scraper.runSource`, `Scraper.saveFileSignature`, `Scraper.saveState`;
* `log_receivers.go` — `datadogSeverities`, `datadogSourceExclusions`,
  `DatadogReceiver.Send`, `LogglyReceiver.Send`, `LogMsg.toLogglyJson`,
  `NotifyAllRelayers`;
* `config.go` — `parsersByName`, `ServiceRegistryConfig.LogSources`,
  `Scraper.LoadConfiguration`, plus `main`'s fatal-on-config-error behaviour;
* the parser file — `RouterLogParser` and its regex, `getCapture`.

Byte slices are `List Nat` (byte values), Go strings become `String`, machine
integers become `Nat`/`Int` with explicit `% 2 ^ 64` where Go's `uint64`
wrap-around matters, fallible operations return `Option`/`Except`, and the
file-system/network effects are made explicit (a file is its byte list; HTTP
posts and I/O failures are oracle parameters; `saveState` is modelled as the
trace of file-system operations it performs).
-/

namespace Logscraper

/-- Go byte slices (`[]byte`) as lists of byte values. -/
abbrev Bytes := List Nat

/-- Bytes of a Go string literal (UTF-8 irrelevant here: all inputs are ASCII). -/
def bytesOf (s : String) : Bytes := s.data.map Char.toNat

/-- The canonical in-memory record (`LogMsg` in `scraper.go`).  All text fields
are raw byte slices, exactly as in the source.  The parsed `Time` is abstracted
as an integer timestamp (no claim inspects the time value; parsers here set 0,
and only the success/failure of time parsing is modelled). -/
structure LogMsg where
  Host : Bytes := []
  OwnHostname : Bytes := []
  Source : Bytes := []
  Time : Int := 0
  Severity : Bytes := []
  Message : Bytes := []
  ProcessID : Bytes := []
  ThreadID : Bytes := []
  ClientIP : Bytes := []
  Request : Bytes := []
  ResponseCode : Bytes := []
  ResponseBytes : Bytes := []
  ResponseDuration : Bytes := []
  JavaClass : Bytes := []
  deriving Repr, DecidableEq

/-- A parser, as in `type Parser func(msg []byte) *LogMsg`: `none` is Go `nil`. -/
abbrev Parser := Bytes → Option LogMsg

/-! ## The line scan with multi-line folding (`Scraper.scan`, scraper.go 233-293) -/

/-- Field injection performed by `LogMsg.toMessageArray` before a record is
appended to the batch. -/
def enrich (hostname ownhostname source : Bytes) (m : LogMsg) : LogMsg :=
  { m with Host := hostname, OwnHostname := ownhostname, Source := source }

/-- `m.toMessageArray(hostname, ownhostname, source, &messages)`: set the
enrichment fields and append the record to the batch. -/
def toMessageArray (m : LogMsg) (hostname ownhostname source : Bytes)
    (messages : List LogMsg) : List LogMsg :=
  messages ++ [enrich hostname ownhostname source m]

/-- The loop state of `Scraper.scan`: the accumulated batch `messages`, the
`discarded` unparseable-byte tally, the continuation buffer `extraLines`, and
the pending record `prev_msg`. -/
structure ScanAcc where
  messages : List LogMsg
  discarded : Nat
  extraLines : Bytes
  prev : Option LogMsg
  deriving Repr, DecidableEq

/-- One iteration of the scan loop (scraper.go 247-271) on one scanned line. -/
def scanLine (parse : Parser) (hostname ownhostname source : Bytes)
    (acc : ScanAcc) (line : Bytes) : ScanAcc :=
  match parse line with
  | some msg =>
    match acc.prev with
    | some pm =>
      let pm := { pm with Message := pm.Message ++ acc.extraLines }
      { acc with
          messages := toMessageArray pm hostname ownhostname source acc.messages,
          extraLines := [], prev := some msg }
    | none =>
      { acc with
          discarded := acc.discarded + acc.extraLines.length,
          extraLines := [], prev := some msg }
  | none =>
    -- extraLines = append(extraLines, '\n'); extraLines = append(extraLines, line...)
    { acc with extraLines := acc.extraLines ++ (10 :: line) }

/-- The scan loop folded over all scanned lines, from the initial state. -/
def scanLoop (parse : Parser) (hostname ownhostname source : Bytes)
    (lines : List Bytes) : ScanAcc :=
  lines.foldl (scanLine parse hostname ownhostname source) ⟨[], 0, [], none⟩

/-- The after-EOF step (scraper.go 276-279): a pending record is pushed into
the batch as-is; note the source does NOT append `extraLines` to it here, and
does not touch `discarded`. -/
def scanFinish (hostname ownhostname source : Bytes) (acc : ScanAcc) : List LogMsg :=
  match acc.prev with
  | some pm => toMessageArray pm hostname ownhostname source acc.messages
  | none => acc.messages

/-- The batch produced by one scan over the given lines. -/
def scanMessages (parse : Parser) (hostname ownhostname source : Bytes)
    (lines : List Bytes) : List LogMsg :=
  scanFinish hostname ownhostname source (scanLoop parse hostname ownhostname source lines)

/-- Continuation bytes accumulated for a run of unparseable lines:
`"\n" ++ line` for each line, in order. -/
def continuationOf : List Bytes → Bytes
  | [] => []
  | u :: us => (10 :: u) ++ continuationOf us

/-! ## Dampened error counters (`commonErrorLog`, scraper.go 35-52) -/

/-- The two error kinds of `commonError`. -/
inductive CommonError where
  | fileOpen
  | signatureSave
  deriving Repr, DecidableEq

/-- Modulus of Go's `uint64`, in which the counters live. -/
def U64 : Nat := 2 ^ 64

/-- `commonErrorLog` is `map[commonError]uint64`; a missing key reads as 0, so a
total function to `uint64` values is the exact model. -/
abbrev CommonErrorLog := CommonError → Nat

/-- `l.tick(err)`: increment the count (with `uint64` wrap-around) and report
whether `(l[err]-1) & l[err] == 0` for the post-increment value, where `-` is
`uint64` subtraction. -/
def commonErrorLogTick (l : CommonErrorLog) (e : CommonError) : CommonErrorLog × Bool :=
  let c := (l e + 1) % U64
  (fun x => if x = e then c else l x, ((c + U64 - 1) % U64) &&& c == 0)

/-- `l.reset(err)`: zero the counter. -/
def commonErrorLogReset (l : CommonErrorLog) (e : CommonError) : CommonErrorLog :=
  fun x => if x = e then 0 else l x

/-- Counter map after `n` consecutive ticks of kind `e`. -/
def ticksOn (l : CommonErrorLog) (e : CommonError) : Nat → CommonErrorLog
  | 0 => l
  | n + 1 => (commonErrorLogTick (ticksOn l e n) e).1

/-! ## The tailing engine (`Scraper.runSource`, scraper.go 179-231, with
`saveFileSignature`/`readFileSignature` 296-320 and `handleLogRoll` 322-354).

A watched file is its current byte content (`Bytes`).  The engine's mutable
per-source state is the pair `firstLine`/`lastPos` of `LogSource`.  I/O
failures that the code merely branches on (open, the various seeks, scanner
read errors) and the outcome of the archive glob are oracle inputs; all actual
data (the file, the archive contents) flows through the model. -/

/-- The mutable tailing state of a `LogSource` (`firstLine`, `lastPos`). -/
structure SrcState where
  firstLine : Bytes
  lastPos : Nat
  deriving Repr, DecidableEq

/-- Strip one trailing CR (`dropCR` in bufio's `ScanLines`). -/
def dropCR (l : Bytes) : Bytes :=
  if l.getLast? = some 13 then l.dropLast else l

/-- Walk the bytes accumulating the current line (reversed) in `cur`; a LF at
the very end of the input terminates the last token without starting a new one. -/
def splitLinesAux (cur : Bytes) : Bytes → List Bytes
  | [] => [dropCR cur.reverse]
  | 10 :: [] => [dropCR cur.reverse]
  | 10 :: c :: rest => dropCR cur.reverse :: splitLinesAux [] (c :: rest)
  | c :: rest => splitLinesAux (c :: cur) rest

/-- `bufio.ScanLines`: split on LF, dropping one trailing CR from each line; a
final unterminated line is still returned; a trailing LF produces no empty
final token, and an empty input produces no tokens. -/
def splitLines (b : Bytes) : List Bytes :=
  match b with
  | [] => []
  | c :: rest => splitLinesAux [] (c :: rest)

/-- One run of `Scraper.scan` over `file` with the reader positioned at
`startPos`, the source's high-water mark being `lastPos` (scraper.go 233-293).
`readErr` is true when `scanner.Err()` reports a read failure after the loop:
in that case the function returns before delivering anything and before moving
`lastPos`.  Otherwise the scanner consumed the file to EOF, so the position
reported by `Seek(0, SEEK_CUR)` is `max file.length startPos`, and the batch is
handed to `NotifyAllRelayers` only when non-empty.  Result: the new `lastPos`
and the delivered batch (if any). -/
def scanFile (parse : Parser) (hostname ownhostname source : Bytes)
    (file : Bytes) (lastPos startPos : Nat) (readErr : Bool) :
    Nat × Option (List LogMsg) :=
  if readErr then
    (lastPos, none)
  else
    let msgs := scanMessages parse hostname ownhostname source
      (splitLines (file.drop startPos))
    (max file.length startPos, if msgs.isEmpty then none else some msgs)

/-- The environment of one `runSource` invocation: which fallible I/O steps
succeed, and what `handleLogRoll`'s glob-plus-signature search finds. -/
structure RunOracle where
  /-- `os.Open(src.Filename)` succeeds. -/
  openOk : Bool := true
  /-- the initial `Seek(0, SEEK_END)` succeeds. -/
  seekEndOk : Bool := true
  /-- `filepath.Glob` in `handleLogRoll` fails. -/
  globErr : Bool := false
  /-- content of the archive whose 64-byte signature matched `firstLine`
  (`none` when no candidate matches). -/
  archive : Option Bytes := none
  /-- the seek to `lastPos` inside the matched archive succeeds. -/
  archSeekOk : Bool := true
  /-- the scanner hits a read error while scanning the archive. -/
  archReadErr : Bool := false
  /-- the `Seek(0, SEEK_SET)` on the watched file after roll handling succeeds. -/
  rawSeekZeroOk : Bool := true
  /-- the `Seek(0, SEEK_SET)` at the end of `saveFileSignature` succeeds. -/
  sigSeekOk : Bool := true
  /-- the seek to `lastPos` just before the main scan succeeds (on failure the
  code only logs and scans from wherever the handle is, i.e. the end). -/
  posSeekOk : Bool := true
  /-- the scanner hits a read error during the main scan. -/
  readErr : Bool := false
  deriving Repr, DecidableEq

/-- Outcome of the part of `runSource` that precedes the main scan: either an
early `return` (`abort`) with the state and the batches delivered so far, or
`go` with additionally the position the reader is left at for the scan. -/
inductive PreScan where
  | abort (st : SrcState) (batches : List (List LogMsg))
  | go (st : SrcState) (batches : List (List LogMsg)) (startPos : Nat)
  deriving Repr, DecidableEq

/-- Open, seek-to-end and rewind detection with `handleLogRoll` (scraper.go
179-209 and 322-354).  The `startPos` component of a `go` here is a
placeholder; the pre-scan seek fixes it later.  Error-counter ticking and
meta-logging on these paths do not touch `firstLine`/`lastPos` and are
elided. -/
def rollStage (parse : Parser) (hostname ownhostname source : Bytes)
    (o : RunOracle) (file : Bytes) (st : SrcState) : PreScan :=
  if !o.openOk then .abort st []
  else if !o.seekEndOk then .abort st []
  else if file.length < st.lastPos then
    -- handleLogRoll (scraper.go 322-354)
    if o.globErr then .abort st []
    else
      match o.archive with
      | none =>
        -- no matching archive: handleLogRoll returns nil
        if !o.rawSeekZeroOk then .abort st []
        else .go ⟨[], 0⟩ [] 0
      | some arch =>
        if !o.archSeekOk then .abort st []
        else
          let (pos2, delivered) :=
            scanFile parse hostname ownhostname source arch st.lastPos st.lastPos
              o.archReadErr
          let st2 : SrcState := { st with lastPos := pos2 }
          if !o.rawSeekZeroOk then .abort st2 delivered.toList
          else .go ⟨[], 0⟩ delivered.toList 0
  else .go st [] st.lastPos

/-- Signature capture when `lastPos == 0` (scraper.go 211-223 with
`saveFileSignature`/`readFileSignature` 296-320): fewer than 64 readable bytes
make `readFileSignature` fail and `runSource` return; otherwise `firstLine` is
set to the first 64 bytes and only then the rewind-to-0 seek can still fail
the method. -/
def captureStage (o : RunOracle) (file : Bytes) (st : SrcState)
    (bs : List (List LogMsg)) : PreScan :=
  if st.lastPos = 0 then
    if file.length < 64 then .abort st bs
    else
      let st2 : SrcState := { st with firstLine := file.take 64 }
      if !o.sigSeekOk then .abort st2 bs
      else .go st2 bs 0
  else .go st bs st.lastPos

/-- `runSource` up to (but excluding) the main `scan` call (scraper.go
179-229): the roll stage, the capture stage, then the seek to `lastPos` (on
whose failure the code only logs and falls through with the handle left at the
end of the file). -/
def preScan (parse : Parser) (hostname ownhostname source : Bytes)
    (o : RunOracle) (file : Bytes) (st : SrcState) : PreScan :=
  match rollStage parse hostname ownhostname source o file st with
  | .abort st1 bs => .abort st1 bs
  | .go st1 bs _ =>
    match captureStage o file st1 bs with
    | .abort st2 bs2 => .abort st2 bs2
    | .go st2 bs2 _ =>
      .go st2 bs2 (if o.posSeekOk then st2.lastPos else file.length)

/-- The complete result of one `runSource` invocation. -/
structure RunResult where
  state : SrcState
  batches : List (List LogMsg)
  /-- the main scan ran and completed without a scanner read error. -/
  scanCompleted : Bool
  deriving Repr, DecidableEq

/-- One `Scraper.runSource` invocation (scraper.go 179-231): the pre-scan
stages followed by `s.scan(raw, src)`. -/
def runSource (parse : Parser) (hostname ownhostname source : Bytes)
    (o : RunOracle) (file : Bytes) (st : SrcState) : RunResult :=
  match preScan parse hostname ownhostname source o file st with
  | .abort st1 bs => ⟨st1, bs, false⟩
  | .go st1 bs startPos =>
    let (pos2, delivered) :=
      scanFile parse hostname ownhostname source file st1.lastPos startPos o.readErr
    ⟨{ st1 with lastPos := pos2 }, bs ++ delivered.toList, !o.readErr⟩

/-- The spec's per-source invariant (§3): `firstLine` has length exactly 64
whenever `lastPos > 0`, and is empty whenever `lastPos = 0`  (`0 ≤ lastPos`
holds by the `Nat` typing of positions). -/
def Inv (st : SrcState) : Prop :=
  (0 < st.lastPos → st.firstLine.length = 64) ∧ (st.lastPos = 0 → st.firstLine = [])

instance (st : SrcState) : Decidable (Inv st) := by
  unfold Inv; infer_instance

/-! ## Configuration loading (`config.go` 10-70, `Scraper.LoadConfiguration`
scraper.go 144-164, `main` main.go 23-26) -/

/-- One entry of a service's `logs` array in the configuration document. -/
structure LogCfg where
  name : String
  filename : String
  parser : String
  deriving Repr, DecidableEq

/-- One entry of the `services` array. -/
structure ServiceCfg where
  logs : List LogCfg
  deriving Repr, DecidableEq

/-- `ServiceRegistryConfig` after a successful `LoadServiceRegistryConfig`
(which has already rejected a missing/empty `services` list as fatal). -/
structure ServiceRegistryConfig where
  services : List ServiceCfg
  deriving Repr, DecidableEq

/-- The keys of the fixed parser registry `parsersByName` (config.go 10-17). -/
def parserRegistry : List String := ["go", "spd", "albion", "router", "java", "yellowfin"]

/-- A configured log source as built by `NewLogSource` (the parser function is
identified by its registry name). -/
structure ConfiguredSource where
  Name : String
  Filename : String
  parserName : String
  deriving Repr, DecidableEq

/-- `ServiceRegistryConfig.LogSources` (config.go 55-70): walk every service's
logs; a known parser name yields a source, an unknown one yields a per-source
error (`"%s has parser %s which cannot be found"`) and the source is skipped. -/
def logSourcesOf (c : ServiceRegistryConfig) : List ConfiguredSource × List String :=
  c.services.foldl
    (fun acc v =>
      v.logs.foldl
        (fun acc s =>
          if parserRegistry.contains s.parser then
            (acc.1 ++ [⟨s.name, s.filename, s.parser⟩], acc.2)
          else
            (acc.1, acc.2 ++ [s.name ++ " has parser " ++ s.parser ++ " which cannot be found"]))
        acc)
    ([], [])

/-- `Scraper.LoadConfiguration` (scraper.go 144-164) after a successful config
read: when `LogSources` reported any error, each is meta-logged and the method
returns the error `"Parsing configuration file failed"` WITHOUT appending any
source; otherwise the sources are appended and nil is returned. -/
def loadConfiguration (c : ServiceRegistryConfig) : Except String (List ConfiguredSource) :=
  let (logSources, errs) := logSourcesOf c
  if errs.isEmpty then .ok logSources else .error "Parsing configuration file failed"

/-- `main` (main.go 23-26): a non-nil error from `LoadConfiguration` is passed
to `log.Fatal`, terminating the process. -/
def mainFatal (c : ServiceRegistryConfig) : Bool :=
  match loadConfiguration c with
  | .ok _ => false
  | .error _ => true

/-! ## Relay fan-out (`log_receivers.go`) -/

/-- `datadogSeverities` (log_receivers.go 29-34): the severities forwarded. -/
def datadogSeverities : List Bytes :=
  [bytesOf "ERROR", bytesOf "E", bytesOf "FATAL", bytesOf "F"]

/-- `datadogSourceExclusions` (log_receivers.go 35-38). -/
def datadogSourceExclusions : List Bytes :=
  [bytesOf "www_js", bytesOf "yellowfin"]

/-- The per-record filter of `DatadogReceiver.Send` (log_receivers.go 113-116):
`severityOK && !sourceExcl`. -/
def datadogFilterOk (m : LogMsg) : Bool :=
  datadogSeverities.contains m.Severity && !(datadogSourceExclusions.contains m.Source)

/-- Result of running one receiver's `Send`: either it returned normally after
the listed POST attempts, or it panicked (a runtime nil-pointer dereference)
after them. -/
inductive SendRun where
  | ok (posts : List LogMsg)
  | panic (posts : List LogMsg)
  deriving Repr, DecidableEq

/-- The loop of `DatadogReceiver.Send` (log_receivers.go 109-128).  `post m`
tells whether the POST for `m` returns a nil error.  On a non-nil error the
code logs to the meta-log and then unconditionally executes
`resp.Body.Close()`; the `http.Client.Post` contract leaves `resp == nil` when
`err != nil`, so that statement dereferences a nil pointer and panics. -/
def datadogSendFrom (post : LogMsg → Bool) (acc : List LogMsg) :
    List LogMsg → SendRun
  | [] => .ok acc
  | m :: rest =>
    if datadogFilterOk m then
      if post m then datadogSendFrom post (acc ++ [m]) rest
      else .panic (acc ++ [m])
    else datadogSendFrom post acc rest

/-- `DatadogReceiver.Send(messages)` with POST outcomes given by `post`. -/
def datadogSend (post : LogMsg → Bool) (messages : List LogMsg) : SendRun :=
  datadogSendFrom post [] messages

/-- `LogglyReceiver.Send` (log_receivers.go 91-104): one bulk POST for the
whole batch; a POST error is logged and the method returns early (before its
`resp.Body.Close()`), so it never panics — it returns normally whether or not
the POST succeeded, having delivered the batch exactly when it did. -/
def logglySend (postOk : Bool) (messages : List LogMsg) : SendRun :=
  if postOk then .ok messages else .ok []

/-- `NotifyAllRelayers` (log_receivers.go 241-246): call each registered
receiver's `Send` in turn.  A panic inside one `Send` propagates and aborts
the iteration, so later receivers are never called.  Each receiver is given as
its `Send` on a fixed batch; the result lists, per receiver in order, the
`SendRun` of those that were actually invoked. -/
def notifyAllRelayers (sends : List (List LogMsg → SendRun))
    (messages : List LogMsg) : List SendRun :=
  match sends with
  | [] => []
  | send :: rest =>
    match send messages with
    | .ok p => .ok p :: notifyAllRelayers rest messages
    | .panic p => [.panic p]

/-! ## The bulk-sink serialization (`LogMsg.toLogglyJson`, log_receivers.go
142-164), with the `strconv` conversions it performs. -/

/-- Value of one hex digit byte, as accepted by `strconv.ParseInt` base 16. -/
def hexVal (b : Nat) : Option Nat :=
  if 48 ≤ b ∧ b ≤ 57 then some (b - 48)
  else if 97 ≤ b ∧ b ≤ 102 then some (b - 87)
  else if 65 ≤ b ∧ b ≤ 70 then some (b - 55)
  else none

/-- Accumulate the value of a non-empty all-hex-digit byte string. -/
def hexDigitsVal : Bytes → Option Nat
  | [] => none
  | [b] => hexVal b
  | b :: rest => do
    let v ← hexVal b
    let r ← hexDigitsVal rest
    pure (v * 16 ^ rest.length + r)

/-- `strconv.ParseInt(string(s), 16, 64)` as used by `toLogglyJson`, which
discards the error and keeps the returned value: an optional sign followed by
hex digits; a syntax error yields 0; an out-of-range value is clamped to
`±2^63` bounds (the `ErrRange` contract). -/
def parseIntHex64 (s : Bytes) : Int :=
  let (neg, digits) :=
    match s with
    | 43 :: rest => (false, rest)
    | 45 :: rest => (true, rest)
    | _ => (false, s)
  match hexDigitsVal digits with
  | none => 0
  | some v =>
    if neg then
      if v > 2 ^ 63 then -(2 ^ 63) else -(v : Int)
    else
      if v > 2 ^ 63 - 1 then 2 ^ 63 - 1 else (v : Int)

/-- Value of one decimal digit byte. -/
def decVal (b : Nat) : Option Nat :=
  if 48 ≤ b ∧ b ≤ 57 then some (b - 48) else none

/-- Accumulate the value of a non-empty all-decimal-digit byte string. -/
def decDigitsVal : Bytes → Option Nat
  | [] => none
  | [b] => decVal b
  | b :: rest => do
    let v ← decVal b
    let r ← decDigitsVal rest
    pure (v * 10 ^ rest.length + r)

/-- Syntactic part of `strconv.ParseFloat(string(s), 64)` on the decimal forms
the log pipeline produces (optional sign, integer digits, optional fractional
digits): `some (neg, intValue, fracValue, fracDigits)` on success, `none` on a
syntax failure. -/
def parseFloatDecParts (s : Bytes) : Option (Bool × Nat × Nat × Nat) :=
  let (neg, rest) :=
    match s with
    | 43 :: r => (false, r)
    | 45 :: r => (true, r)
    | _ => (false, s)
  let (intPart, fracPart) :=
    match rest.splitOn 46 with
    | [i] => (i, some ([] : Bytes))
    | [i, f] => (i, some f)
    | _ => ([], none)
  match fracPart with
  | none => none
  | some f =>
    let iv := if intPart.isEmpty then (if f.isEmpty then none else some 0) else decDigitsVal intPart
    let fv := if f.isEmpty then (if intPart.isEmpty then none else some 0) else decDigitsVal f
    match iv, fv with
    | some i, some fr => some (neg, i, fr, f.length)
    | _, _ => none

/-- `strconv.ParseFloat(string(s), 64)` with the error discarded, so a syntax
failure yields 0.  The value is kept as the exact rational the decimal
denotes; float64 rounding is immaterial to the claims, which compare against
short decimals that round-trip through float64. -/
def parseFloatDec (s : Bytes) : ℚ :=
  match parseFloatDecParts s with
  | none => 0
  | some (neg, i, fr, len) =>
    let q : ℚ := (i : ℚ) + (fr : ℚ) / ((10 : ℚ) ^ len)
    if neg then -q else q

/-- The flat JSON object the bulk sink emits for one record (`logglyJsonMsg`,
log_receivers.go 61-76); field names are its JSON keys.  String-typed fields
keep their bytes; `process_id`, `thread_id` and `response_bytes` go through
`strconv.ParseInt(_, 16, 64)` and `response_duration` through
`strconv.ParseFloat(_, 64)` exactly as in `toLogglyJson`. -/
structure LogglyJsonMsg where
  host : Bytes
  ownhostname : Bytes
  source : Bytes
  timestamp : Int
  severity : Bytes
  message : Bytes
  process_id : Int
  thread_id : Int
  client_ip : Bytes
  request : Bytes
  response_code : Bytes
  response_bytes : Int
  response_duration : ℚ
  java_class : Bytes
  deriving Repr, DecidableEq

/-- `LogMsg.toLogglyJson` (log_receivers.go 142-164), up to the JSON encoding
of the resulting flat object. -/
def toLogglyJson (m : LogMsg) : LogglyJsonMsg :=
  { host := m.Host
    ownhostname := m.OwnHostname
    source := m.Source
    timestamp := m.Time
    severity := m.Severity
    message := m.Message
    process_id := parseIntHex64 m.ProcessID
    thread_id := parseIntHex64 m.ThreadID
    client_ip := m.ClientIP
    request := m.Request
    response_code := m.ResponseCode
    response_bytes := parseIntHex64 m.ResponseBytes
    response_duration := parseFloatDec m.ResponseDuration
    java_class := m.JavaClass }

/-! ## `RouterLogParser` (parser file, with `getCapture` and `routerLogRegex`)

The regex is:   (\S+) (\S+) (\S+) \[([^\]]+)\] "([^"]+)" (\S+) (\S+) (\S+)
matched by `FindSubmatchIndex` (leftmost match, Perl submatch semantics).  For
this pattern the semantics collapse to a deterministic scan: each `(\S+)` is a
maximal run of non-whitespace and is always followed in the pattern by a
character that `\S` also matches away (a space, or nothing), so no shorter
match can ever succeed where the maximal run fails — and likewise for
`([^\]]+)` before `\]` and `([^"]+)` before `"`.  Unanchored search tries each
later start position when matching at the current one fails. -/

/-- Go regexp whitespace class `\s` = `[\t\n\f\r ]`. -/
def goWhitespace : List Nat := [9, 10, 12, 13, 32]

/-- `\S`. -/
def isNonSpace (b : Nat) : Bool := !(goWhitespace.contains b)

/-- Maximal run of bytes satisfying `p`, and the remainder. -/
def takeRun (p : Nat → Bool) : Bytes → Bytes × Bytes
  | [] => ([], [])
  | b :: rest =>
    if p b then
      let (r, rest2) := takeRun p rest
      (b :: r, rest2)
    else ([], b :: rest)

/-- Match one-or-more bytes satisfying `p` (a maximal, forced run). -/
def matchPlus (p : Nat → Bool) (s : Bytes) : Option (Bytes × Bytes) :=
  match takeRun p s with
  | ([], _) => none
  | (run, rest) => some (run, rest)

/-- Match one literal byte. -/
def matchByte (b : Nat) : Bytes → Option Bytes
  | [] => none
  | c :: rest => if c = b then some rest else none

/-- The eight submatches of `routerLogRegex`, in capture order. -/
structure RouterCaps where
  ip : Bytes
  ident : Bytes
  user : Bytes
  ts : Bytes
  req : Bytes
  code : Bytes
  rbytes : Bytes
  dur : Bytes
  deriving Repr, DecidableEq

/-- One token of the (linearised) router pattern: a one-or-more character
class capture, or a literal byte. -/
inductive RTok where
  | plus (p : Nat → Bool)
  | lit (b : Nat)

/-- Match a token sequence at the head of the input, returning the capture-
group submatches in order.  Bytes remaining after the last token are fine
(the pattern is unanchored on the right). -/
def matchToks : List RTok → Bytes → Option (List Bytes)
  | [], _ => some []
  | .lit b :: ts, s => (matchByte b s).bind (matchToks ts)
  | .plus p :: ts, s =>
    (matchPlus p s).bind fun rr => (matchToks ts rr.2).map (rr.1 :: ·)

/-- `routerLogRegex` as its token sequence. -/
def routerToks : List RTok :=
  [.plus isNonSpace, .lit 32, .plus isNonSpace, .lit 32, .plus isNonSpace, .lit 32,
   .lit 91, .plus (fun b => b ≠ 93), .lit 93, .lit 32, .lit 34,
   .plus (fun b => b ≠ 34), .lit 34, .lit 32,
   .plus isNonSpace, .lit 32, .plus isNonSpace, .lit 32, .plus isNonSpace]

/-- Match `routerLogRegex` with the match starting at the head of `s`. -/
def routerMatchAt (s : Bytes) : Option RouterCaps :=
  match matchToks routerToks s with
  | some [c1, c2, c3, c4, c5, c6, c7, c8] => some ⟨c1, c2, c3, c4, c5, c6, c7, c8⟩
  | _ => none

/-- `routerLogRegex.FindSubmatchIndex(msg)`: leftmost match. -/
def routerFind (s : Bytes) : Option RouterCaps :=
  match routerMatchAt s with
  | some c => some c
  | none =>
    match s with
    | [] => none
    | _ :: rest => routerFind rest

/-- Acceptance of `time.Parse(timeApache, ts)` for the layout
`02/Jan/2006:15:04:05 -0700`: two day digits, slash, a month name, slash, four
year digits, colon-separated two-digit clock fields in range, a space, and a
signed four-digit zone.  (The stdlib also cross-checks the day against the
month's length; every claim input is well inside these bounds, so that check
is not spelled out.) -/
def monthNames : List Bytes :=
  [bytesOf "Jan", bytesOf "Feb", bytesOf "Mar", bytesOf "Apr", bytesOf "May",
   bytesOf "Jun", bytesOf "Jul", bytesOf "Aug", bytesOf "Sep", bytesOf "Oct",
   bytesOf "Nov", bytesOf "Dec"]

/-- Two decimal digits with their value, when in `[lo, hi]`. -/
def twoDigits (lo hi : Nat) : Bytes → Option Bytes
  | a :: b :: rest =>
    match decVal a, decVal b with
    | some x, some y => if lo ≤ x * 10 + y ∧ x * 10 + y ≤ hi then some rest else none
    | _, _ => none
  | _ => none

/-- Consume a month name. -/
def monthStep (s : Bytes) : Option Bytes :=
  if monthNames.contains (s.take 3) then some (s.drop 3) else none

/-- Consume the zone sign (`+` or `-`). -/
def signStep (s : Bytes) : Option Bytes :=
  if s.head? = some 43 ∨ s.head? = some 45 then some s.tail else none

/-- Structural acceptance of the apache time layout
(`dd / Mon / yyyy : HH : MM : SS ±zzzz`, nothing after). -/
def apacheTimeOk (ts : Bytes) : Bool :=
  (((((((((((((((twoDigits 1 31 ts).bind
    (matchByte 47)).bind
    monthStep).bind
    (matchByte 47)).bind
    (twoDigits 0 99)).bind
    (twoDigits 0 99)).bind
    (matchByte 58)).bind
    (twoDigits 0 23)).bind
    (matchByte 58)).bind
    (twoDigits 0 59)).bind
    (matchByte 58)).bind
    (twoDigits 0 59)).bind
    (matchByte 32)).bind
    signStep).bind
    (twoDigits 0 23)).bind
    (twoDigits 0 59) |>.map List.isEmpty |>.getD false

/-- `RouterLogParser` (parser file): run the regex; on a capture-count mismatch
return nil; populate `ClientIP`, `Time`, `Request`, `ResponseCode`,
`ResponseBytes`, `ResponseDuration` from captures 1, 4, 5, 6, 7, 8; return nil
when `time.Parse` failed on capture 4. -/
def RouterLogParser (msg : Bytes) : Option LogMsg :=
  match routerFind msg with
  | none => none
  | some c =>
    if apacheTimeOk c.ts then
      some { ClientIP := c.ip, Time := 0, Request := c.req, ResponseCode := c.code,
             ResponseBytes := c.rbytes, ResponseDuration := c.dur }
    else none

/-! ## The state store writer (`Scraper.saveState`, scraper.go 381-405)

`saveState` marshals the full state document and hands it to
`ioutil.WriteFile(s.StateFilename, raw, 0666)`.  We model the trace of
file-system operations the call performs and the disk contents after a crash
at any point of that trace. -/

/-- Primitive file-system operations. -/
inductive FsOp where
  /-- open with `O_WRONLY|O_CREATE|O_TRUNC`: the file now exists and is empty. -/
  | openTrunc (path : String)
  /-- append the data to the (just-truncated) file. -/
  | writeChunk (path : String) (data : Bytes)
  /-- atomically rename `src` over `dst`. -/
  | rename (src dst : String)
  deriving Repr, DecidableEq

/-- Whether an operation is a rename. -/
def FsOp.isRename : FsOp → Bool
  | .rename _ _ => true
  | _ => false

/-- `ioutil.WriteFile(name, data, perm)`: truncating open followed by the
write of `data`. -/
def writeFileOps (name : String) (data : Bytes) : List FsOp :=
  [.openTrunc name, .writeChunk name data]

/-- The file-system operations performed by one `saveState` call whose
marshalled document is `raw` (marshalling of `stateJson` cannot fail). -/
def saveStateOps (stateFilename : String) (raw : Bytes) : List FsOp :=
  if stateFilename = "" then [] else writeFileOps stateFilename raw

/-- Disk contents (path to file bytes; `none` = no such file). -/
abbrev Disk := String → Option Bytes

/-- Effect of one operation on the disk. -/
def applyFsOp (disk : Disk) : FsOp → Disk
  | .openTrunc p => fun q => if q = p then some [] else disk q
  | .writeChunk p d => fun q => if q = p then some ((disk p).getD [] ++ d) else disk q
  | .rename a b => fun q => if q = b then disk a else if q = a then none else disk q

/-- Disk after a prefix of the operations (a crash after `k` of them). -/
def runFsOps (disk : Disk) (ops : List FsOp) : Disk :=
  ops.foldl applyFsOp disk

/-! ## Concrete fixtures used by counterexamples and witnesses -/

/-- A minimal concrete parser for scan counterexamples/witnesses: the one-byte
lines `A` and `B` parse (into a record carrying the line as its message),
everything else is unparseable. -/
def testParse : Parser := fun b =>
  if b = [65] ∨ b = [66] then some { Message := b } else none

/-! ## Lemmas about the scan loop -/

/-- Folding the scan loop over unparseable lines only grows the continuation
buffer. -/
theorem foldl_scanLine_unparseable (parse : Parser) (h o s : Bytes) :
    ∀ (us : List Bytes), (∀ u ∈ us, parse u = none) → ∀ acc : ScanAcc,
      us.foldl (scanLine parse h o s) acc =
        { acc with extraLines := acc.extraLines ++ continuationOf us }
  | [], _, acc => by simp [continuationOf]
  | u :: us, hus, acc => by
    have hu : parse u = none := hus u (List.mem_cons_self u us)
    have hrest : ∀ x ∈ us, parse x = none := fun x hx => hus x (List.mem_cons_of_mem u hx)
    simp only [List.foldl_cons]
    rw [show scanLine parse h o s acc u =
          { acc with extraLines := acc.extraLines ++ (10 :: u) } by
        simp [scanLine, hu]]
    rw [foldl_scanLine_unparseable parse h o s us hrest]
    simp [continuationOf]

/-!
### C6 — continuation folding

Claim: for every scan input consisting of a parseable line, then N unparseable
lines, then another parseable line, exactly two records are emitted in that
order, and the first record's `Message` is suffixed by `"\n" ++ line` for each
of the N continuation lines in order.
-/

/-- C6 (confirmed).  A parseable line `p1`, then unparseable lines `us`, then
a parseable line `p2` produce exactly the two records `[m1', m2]` in that
order, where `m1'` is `m1` with `"\n" ++ u` appended to its `Message` for each
`u` in `us`, in order (both records carrying the batch-time enrichment
fields). -/
theorem scan_continuation_folding (parse : Parser) (h o s : Bytes)
    (p1 p2 : Bytes) (m1 m2 : LogMsg) (us : List Bytes)
    (h1 : parse p1 = some m1) (h2 : parse p2 = some m2)
    (hus : ∀ u ∈ us, parse u = none) :
    scanMessages parse h o s (p1 :: us ++ [p2]) =
      [enrich h o s { m1 with Message := m1.Message ++ continuationOf us },
       enrich h o s m2] := by
  unfold scanMessages scanLoop
  simp only [List.cons_append, List.foldl_cons]
  rw [show scanLine parse h o s ⟨[], 0, [], none⟩ p1 = ⟨[], 0, [], some m1⟩ by
    simp [scanLine, h1]]
  rw [List.foldl_append,
    foldl_scanLine_unparseable parse h o s us hus ⟨[], 0, [], some m1⟩]
  simp only [List.foldl_cons, List.foldl_nil]
  simp [scanLine, h2, scanFinish, toMessageArray]

/-- C6 witness: the concrete scenario with two continuation lines. -/
theorem scan_continuation_folding_witness :
    (testParse [65] = some { Message := [65] } ∧
     testParse [66] = some { Message := [66] } ∧
     ∀ u ∈ [[120], [121]], testParse u = (none : Option LogMsg)) ∧
    scanMessages testParse [104] [111] [115] ([65] :: [[120], [121]] ++ [[66]]) =
      [enrich [104] [111] [115] { Message := [65, 10, 120, 10, 121] },
       enrich [104] [111] [115] { Message := [66] }] :=
  ⟨⟨by decide, by decide, by decide⟩, by
    rw [scan_continuation_folding testParse [104] [111] [115] [65] [66]
      { Message := [65] } { Message := [66] } [[120], [121]]
      (by decide) (by decide) (by decide)]
    decide⟩

/-!
### C1 — behaviour at end of file

Claim: at EOF with a pending record and a non-empty continuation buffer, the
buffer is appended to the pending record's `Message` before the push; at EOF
with a non-empty buffer and no pending record, the discarded-byte tally is
incremented by the buffer's length.

The source does neither (scraper.go 276-282): the pending record is pushed
as-is — deliberately, per the comment at scraper.go 265-267 about avoiding a
half-written trailing message — and `discarded` is only ever incremented when
a NEW parseable line arrives with no pending record (scraper.go 259-261).
-/

/-- C1 counterexample.  Scanning `["A", "x"]` with the test parser leaves the
pending record's message `"A"` — not `"A\nx"` as the claim requires — and
scanning `["x"]` alone ends with discarded tally 0, not the buffer length 2. -/
theorem scan_eof_counterexample :
    (scanMessages testParse [104] [111] [115] [[65], [120]]).map
        (fun m => m.Message) = [[65]] ∧
    [[65]] ≠ ([[65, 10, 120]] : List Bytes) ∧
    (scanLoop testParse [104] [111] [115] [[120]]).extraLines.length = 2 ∧
    (scanLoop testParse [104] [111] [115] [[120]]).discarded = 0 ∧
    (0 : Nat) ≠ 2 := by
  refine ⟨by decide, by decide, by decide, by decide, by decide⟩

/-- C1 amended: at EOF a pending record is pushed with its `Message` exactly
as accumulated (the trailing continuation buffer is dropped, not appended),
and a trailing continuation buffer never increments the discarded tally —
whether or not a pending record exists.  (`discarded` moves only when a new
parseable line arrives with no pending record.) -/
theorem scan_eof_amended (parse : Parser) (h o s : Bytes) (p : Bytes)
    (m : LogMsg) (us : List Bytes)
    (hp : parse p = some m) (hus : ∀ u ∈ us, parse u = none) :
    scanMessages parse h o s (p :: us) = [enrich h o s m] ∧
    (scanLoop parse h o s (p :: us)).discarded = 0 ∧
    scanMessages parse h o s us = [] ∧
    (scanLoop parse h o s us).discarded = 0 := by
  have hloop : scanLoop parse h o s (p :: us) = ⟨[], 0, continuationOf us, some m⟩ := by
    unfold scanLoop
    rw [List.foldl_cons]
    rw [show scanLine parse h o s ⟨[], 0, [], none⟩ p = ⟨[], 0, [], some m⟩ by
      simp [scanLine, hp]]
    rw [foldl_scanLine_unparseable parse h o s us hus ⟨[], 0, [], some m⟩]
    rfl
  have hloop2 : scanLoop parse h o s us = ⟨[], 0, continuationOf us, none⟩ := by
    unfold scanLoop
    rw [foldl_scanLine_unparseable parse h o s us hus ⟨[], 0, [], none⟩]
    rfl
  refine ⟨?_, ?_, ?_, ?_⟩
  · unfold scanMessages
    rw [hloop]; simp [scanFinish, toMessageArray]
  · rw [hloop]
  · unfold scanMessages
    rw [hloop2]; simp [scanFinish]
  · rw [hloop2]

/-- C1 amended witness: concrete instance with one trailing unparseable line. -/
theorem scan_eof_amended_witness :
    (testParse [65] = some { Message := [65] } ∧
     ∀ u ∈ [[120]], testParse u = (none : Option LogMsg)) ∧
    scanMessages testParse [104] [111] [115] [[65], [120]] =
      [enrich [104] [111] [115] { Message := [65] }] ∧
    (scanLoop testParse [104] [111] [115] [[65], [120]]).discarded = 0 ∧
    scanMessages testParse [104] [111] [115] [[120]] = [] ∧
    (scanLoop testParse [104] [111] [115] [[120]]).discarded = 0 :=
  ⟨⟨by decide, by decide⟩,
   scan_eof_amended testParse [104] [111] [115] [65] { Message := [65] } [[120]]
     (by decide) (by decide)⟩

/-!
### C9 — Datadog filtering

Claim: for every batch, the Datadog sink sends exactly those records whose
severity is in `{ERROR, E, FATAL, F}` and whose source is not in
`{www_js, yellowfin}`, one POST per surviving record.
-/

/-- The send loop posts exactly the filtered records, in order. -/
theorem datadogSendFrom_filter (post : LogMsg → Bool) :
    ∀ (msgs : List LogMsg), (∀ m ∈ msgs, datadogFilterOk m = true → post m = true) →
    ∀ acc : List LogMsg,
      datadogSendFrom post acc msgs = .ok (acc ++ msgs.filter datadogFilterOk)
  | [], _, acc => by simp [datadogSendFrom]
  | m :: msgs, hp, acc => by
    have hrest : ∀ x ∈ msgs, datadogFilterOk x = true → post x = true :=
      fun x hx => hp x (List.mem_cons_of_mem m hx)
    by_cases hf : datadogFilterOk m = true
    · rw [show datadogSendFrom post acc (m :: msgs) = datadogSendFrom post (acc ++ [m]) msgs by
        simp [datadogSendFrom, hf, hp m (List.mem_cons_self m msgs) hf]]
      rw [datadogSendFrom_filter post msgs hrest (acc ++ [m])]
      simp [List.filter_cons, hf]
    · rw [show datadogSendFrom post acc (m :: msgs) = datadogSendFrom post acc msgs by
        simp [datadogSendFrom, hf]]
      rw [datadogSendFrom_filter post msgs hrest acc]
      simp [List.filter_cons, hf]

/-- C9 (confirmed).  Whenever every POST that is attempted succeeds,
`DatadogReceiver.Send` returns normally having made exactly one POST per
record whose severity is in `{ERROR, E, FATAL, F}` and whose source is not in
`{www_js, yellowfin}`, in batch order. -/
theorem datadog_send_filters (post : LogMsg → Bool) (msgs : List LogMsg)
    (hp : ∀ m ∈ msgs, datadogFilterOk m = true → post m = true) :
    datadogSend post msgs = .ok (msgs.filter datadogFilterOk) := by
  unfold datadogSend
  rw [datadogSendFrom_filter post msgs hp []]
  simp

/-- The concrete S6 batch: severities `[I, E, W, FATAL, ERROR]`, sources
`[a, www_js, a, a, a]`. -/
def s6Batch : List LogMsg :=
  [{ Severity := bytesOf "I", Source := bytesOf "a" },
   { Severity := bytesOf "E", Source := bytesOf "www_js" },
   { Severity := bytesOf "W", Source := bytesOf "a" },
   { Severity := bytesOf "FATAL", Source := bytesOf "a" },
   { Severity := bytesOf "ERROR", Source := bytesOf "a" }]

/-- C9 witness: on the S6 batch with all POSTs succeeding, exactly the two
records FATAL/a and ERROR/a are posted, in order. -/
theorem datadog_send_filters_witness :
    (∀ m ∈ s6Batch, datadogFilterOk m = true → (fun _ => true) m = true) ∧
    datadogSend (fun _ => true) s6Batch =
      .ok [{ Severity := bytesOf "FATAL", Source := bytesOf "a" },
           { Severity := bytesOf "ERROR", Source := bytesOf "a" }] ∧
    (s6Batch.filter datadogFilterOk).length = 2 :=
  ⟨fun m _ _ => rfl,
   (datadog_send_filters (fun _ => true) s6Batch (fun m _ _ => rfl)).trans (by decide),
   by decide⟩

/-!
### C2 — sink isolation on POST failure

Claim: if one sink's `Send` fails (its POST returns an error), the failure is
logged to the meta-log and swallowed, and every other registered sink still
receives the same batch.

The code (log_receivers.go 121-125) logs the error and then unconditionally
runs `resp.Body.Close()`; when `http.Client.Post` returns a non-nil error the
response is nil, so this dereferences a nil pointer and panics, aborting
`NotifyAllRelayers` before the remaining sinks are called.  The early-return
in `LogglyReceiver.Send` (log_receivers.go 99-102) shows the intended
swallow-and-continue pattern; the Datadog loop omits it — a slip.
-/

/-- A concrete record that passes the Datadog filter. -/
def panicMsg : LogMsg := { Severity := bytesOf "ERROR", Source := bytesOf "a" }

/-- C2 (code bug).  With a registry holding the Datadog sink and then the bulk
sink, a batch of one ERROR record, and the POST failing: the Datadog `Send`
panics after its failed POST instead of swallowing the error, the fan-out
stops there, and the bulk sink — which would have delivered the batch — never
receives it. -/
theorem datadog_post_error_panics :
    datadogSend (fun _ => false) [panicMsg] = .panic [panicMsg] ∧
    notifyAllRelayers [datadogSend (fun _ => false), logglySend true] [panicMsg] =
      [.panic [panicMsg]] ∧
    logglySend true [panicMsg] = .ok [panicMsg] := by
  refine ⟨by decide, by decide, by decide⟩

/-!
### C3 — unknown parser names

Claim: a source whose parser name is outside
`{go, spd, albion, router, java, yellowfin}` is reported per-source and
skipped while the remaining sources are still loaded and the process does not
terminate (only a missing/empty services list being fatal).

`LogSources` (config.go 55-70) does skip per-source, but
`Scraper.LoadConfiguration` (scraper.go 151-157) returns an error whenever ANY
per-source error exists — discarding the successfully built sources — and
`main` (main.go 23-26) passes that error to `log.Fatal`.
-/

/-- A concrete configuration: one source with the known parser `go`, one with
the unknown parser `bogus`. -/
def cfgBad : ServiceRegistryConfig :=
  ⟨[⟨[⟨"authlog", "a.log", "go"⟩, ⟨"weird", "b.log", "bogus"⟩]⟩]⟩

/-- C3 counterexample.  On `cfgBad`, `LogSources` does skip the bad source and
keep the good one, but `LoadConfiguration` returns an error (loading no
source at all) and `main` terminates fatally — the claim's "remaining sources
are still loaded and the process does not terminate" is false. -/
theorem unknown_parser_fatal_counterexample :
    (logSourcesOf cfgBad).1 = [⟨"authlog", "a.log", "go"⟩] ∧
    (logSourcesOf cfgBad).2.length = 1 ∧
    loadConfiguration cfgBad = .error "Parsing configuration file failed" ∧
    mainFatal cfgBad = true := by
  refine ⟨by decide, by decide, rfl, by decide⟩

/-- All logs of all services, in order. -/
def allLogs : List ServiceCfg → List LogCfg
  | [] => []
  | v :: vs => v.logs ++ allLogs vs

/-- The sources `LogSources` keeps: those with a registered parser name. -/
def keptSources (ls : List LogCfg) : List ConfiguredSource :=
  (ls.filter (fun c => parserRegistry.contains c.parser)).map
    (fun c => ⟨c.name, c.filename, c.parser⟩)

/-- The per-source errors `LogSources` reports: one per unknown parser name. -/
def skipErrors (ls : List LogCfg) : List String :=
  (ls.filter (fun c => !parserRegistry.contains c.parser)).map
    (fun c => c.name ++ " has parser " ++ c.parser ++ " which cannot be found")

/-- The inner fold of `LogSources` over one service's logs. -/
theorem logSources_inner (ls : List LogCfg) :
    ∀ acc : List ConfiguredSource × List String,
      ls.foldl
        (fun acc s =>
          if parserRegistry.contains s.parser then
            (acc.1 ++ [⟨s.name, s.filename, s.parser⟩], acc.2)
          else
            (acc.1, acc.2 ++ [s.name ++ " has parser " ++ s.parser ++ " which cannot be found"]))
        acc = (acc.1 ++ keptSources ls, acc.2 ++ skipErrors ls) := by
  induction ls with
  | nil => intro acc; simp [keptSources, skipErrors]
  | cons c ls ih =>
    intro acc
    by_cases hm : c.parser ∈ parserRegistry
    · have hc : parserRegistry.contains c.parser = true := by simpa using hm
      simp only [List.foldl_cons, hc, if_true]
      rw [ih]
      simp [keptSources, skipErrors, List.filter_cons, hm]
    · have hc : parserRegistry.contains c.parser = false := by simpa using hm
      simp only [List.foldl_cons, hc, Bool.false_eq_true, if_false]
      rw [ih]
      simp [keptSources, skipErrors, List.filter_cons, hm]

/-- The outer fold of `LogSources` over the services. -/
theorem logSources_outer (vs : List ServiceCfg) :
    ∀ acc : List ConfiguredSource × List String,
      vs.foldl
        (fun acc v =>
          v.logs.foldl
            (fun acc s =>
              if parserRegistry.contains s.parser then
                (acc.1 ++ [⟨s.name, s.filename, s.parser⟩], acc.2)
              else
                (acc.1, acc.2 ++ [s.name ++ " has parser " ++ s.parser ++ " which cannot be found"]))
            acc)
        acc = (acc.1 ++ keptSources (allLogs vs), acc.2 ++ skipErrors (allLogs vs)) := by
  induction vs with
  | nil => intro acc; simp [allLogs, keptSources, skipErrors]
  | cons v vs ih =>
    intro acc
    simp only [List.foldl_cons]
    rw [logSources_inner v.logs acc, ih]
    simp [allLogs, keptSources, skipErrors, List.filter_append, List.append_assoc]

/-- C3 amended: `LogSources` itself skips each source with an unregistered
parser name and reports one error per skipped source while keeping the rest;
but `LoadConfiguration` returns an error whenever any per-source error exists
(loading none of the sources), and `main` then terminates fatally.  Only a
configuration whose parser names are all registered loads its sources and
lets the process continue. -/
theorem unknown_parser_skip_is_fatal (c : ServiceRegistryConfig) :
    logSourcesOf c = (keptSources (allLogs c.services), skipErrors (allLogs c.services)) ∧
    (skipErrors (allLogs c.services) = [] →
      loadConfiguration c = .ok (keptSources (allLogs c.services)) ∧ mainFatal c = false) ∧
    (skipErrors (allLogs c.services) ≠ [] →
      loadConfiguration c = .error "Parsing configuration file failed" ∧ mainFatal c = true) := by
  have hls : logSourcesOf c = (keptSources (allLogs c.services), skipErrors (allLogs c.services)) := by
    unfold logSourcesOf
    rw [logSources_outer c.services ([], [])]
    simp
  refine ⟨hls, ?_, ?_⟩
  · intro hnil
    have : loadConfiguration c = .ok (keptSources (allLogs c.services)) := by
      unfold loadConfiguration
      rw [hls]
      simp [hnil]
    exact ⟨this, by unfold mainFatal; rw [this]⟩
  · intro hne
    have : loadConfiguration c = .error "Parsing configuration file failed" := by
      unfold loadConfiguration
      rw [hls]
      simp [List.isEmpty_iff, hne]
    exact ⟨this, by unfold mainFatal; rw [this]⟩

/-- C3 amended witness: concrete instances of both branches. -/
theorem unknown_parser_skip_is_fatal_witness :
    (skipErrors (allLogs cfgBad.services) ≠ [] →
      loadConfiguration cfgBad = .error "Parsing configuration file failed" ∧
      mainFatal cfgBad = true) ∧
    skipErrors (allLogs cfgBad.services) ≠ [] ∧
    logSourcesOf cfgBad = (keptSources (allLogs cfgBad.services), skipErrors (allLogs cfgBad.services)) :=
  ⟨(unknown_parser_skip_is_fatal cfgBad).2.2, by decide,
   (unknown_parser_skip_is_fatal cfgBad).1⟩

/-!
### C4 — atomicity of `saveState`

Claim: `saveState` writes the full document to a sibling temporary file and
renames it over the state file, so a crash at any point leaves either the
previous or the new valid document, never a truncated one.

The source (scraper.go 395-404) marshals the document and calls
`ioutil.WriteFile(s.StateFilename, raw, 0666)` on the state file directly:
no temporary file, no rename.
-/

/-- A concrete prior disk: the state file holds the previous document `[91]`. -/
def diskC4 : Disk := fun p => if p = "scraper-state.json" then some [91] else none

/-- C4 counterexample.  For a concrete save of the document `[1, 2, 3]` over a
state file holding `[91]`: the operation trace contains no rename at all (so
no temp-file-and-rename scheme is in play), and a crash after the truncating
open leaves the state file EMPTY — neither the previous document nor the new
one. -/
theorem saveState_truncation_counterexample :
    (saveStateOps "scraper-state.json" [1, 2, 3]).all (fun op => !op.isRename) = true ∧
    (saveStateOps "scraper-state.json" [1, 2, 3]).length = 2 ∧
    runFsOps diskC4 ((saveStateOps "scraper-state.json" [1, 2, 3]).take 1)
      "scraper-state.json" = some [] ∧
    some ([] : Bytes) ≠ some [91] ∧ some ([] : Bytes) ≠ some [1, 2, 3] := by
  refine ⟨rfl, rfl, rfl, by decide, by decide⟩

/-- C4 amended: for any non-empty state-file name, `saveState`'s file-system
trace is exactly a truncating open of the state file followed by one write of
the full marshalled document — it contains no rename and touches no sibling
temporary file — and a crash between the truncation and the write leaves the
state file empty on any prior disk. -/
theorem saveState_direct_write (name : String) (raw : Bytes) (d : Disk)
    (hname : name ≠ "") :
    saveStateOps name raw = [.openTrunc name, .writeChunk name raw] ∧
    (saveStateOps name raw).all (fun op => !op.isRename) = true ∧
    runFsOps d ((saveStateOps name raw).take 1) name = some [] := by
  have hops : saveStateOps name raw = [.openTrunc name, .writeChunk name raw] := by
    unfold saveStateOps writeFileOps
    simp [hname]
  refine ⟨hops, ?_, ?_⟩
  · rw [hops]; simp [FsOp.isRename]
  · rw [hops]
    simp [runFsOps, applyFsOp]

/-- C4 amended witness. -/
theorem saveState_direct_write_witness :
    ("state.json" : String) ≠ "" ∧
    (saveStateOps "state.json" [7] = [.openTrunc "state.json", .writeChunk "state.json" [7]] ∧
     (saveStateOps "state.json" [7]).all (fun op => !op.isRename) = true ∧
     runFsOps (fun _ => none) ((saveStateOps "state.json" [7]).take 1) "state.json" = some []) :=
  ⟨by decide, saveState_direct_write "state.json" [7] (fun _ => none) (by decide)⟩

/-!
### C5 — the router record through the bulk sink

Claim: for the access-log line
`127.0.0.1 - - [27/Jul/2015:15:15:45 +0200] "GET /a HTTP/1.1" 200 62223 3.8250`
the bulk-sink JSON contains `response_code "200"`, `response_bytes 62223` and
`response_duration 3.825`.

The code disagrees on `response_bytes`: `toLogglyJson` (log_receivers.go 145)
parses the captured bytes `"62223"` with `strconv.ParseInt(_, 16, 64)` — base
SIXTEEN — producing 0x62223 = 401955.  Router access logs write decimal byte
counts, and the spec's own design notes flag the hex conversion as the bug
(decimal is correct), so this is recorded as a code bug at this input. -/

/-- The concrete S2 input line. -/
def lineC5 : Bytes :=
  bytesOf "127.0.0.1 - - [27/Jul/2015:15:15:45 +0200] \"GET /a HTTP/1.1\" 200 62223 3.8250"

/-- The record the router parser produces from the S2 line. -/
def msgC5 : LogMsg :=
  { ClientIP := bytesOf "127.0.0.1", Time := 0, Request := bytesOf "GET /a HTTP/1.1",
    ResponseCode := bytesOf "200", ResponseBytes := bytesOf "62223",
    ResponseDuration := bytesOf "3.8250" }

/-- C5 (code bug).  Evaluating the router parser and the bulk-sink conversion
at the S2 line: `response_code` and `response_duration` agree with the claim,
but `response_bytes` comes out 401955 (the hex reading of `"62223"`), not
62223. -/
theorem router_bulk_sink_hex_bug :
    RouterLogParser lineC5 = some msgC5 ∧
    (toLogglyJson msgC5).response_code = bytesOf "200" ∧
    (toLogglyJson msgC5).response_duration = (3825 : ℚ) / 1000 ∧
    (toLogglyJson msgC5).response_bytes = 401955 ∧
    parseIntHex64 (bytesOf "62223") = 401955 ∧
    (401955 : Int) ≠ 62223 := by
  refine ⟨by decide, by decide, ?_, by decide, by decide, by decide⟩
  show parseFloatDec msgC5.ResponseDuration = (3825 : ℚ) / 1000
  have hparts : parseFloatDecParts msgC5.ResponseDuration = some (false, 3, 8250, 4) := by
    decide
  unfold parseFloatDec
  rw [hparts]
  norm_num

/-!
### C10 — a scanner read error abandons the scan atomically

Claim: when the line scanner reports a read error, no records from that scan
reach any sink and the source's `lastPos` is unchanged, so the same bytes are
re-read on the next poll.

In the source (scraper.go 272-275) the `scanner.Err()` check returns from
`scan` before the `Seek(0, SEEK_CUR)` that advances `src.lastPos` (line 284)
and before the `NotifyAllRelayers` call (line 291), discarding the records
accumulated so far.
-/

/-- C10 (confirmed).  A read error makes `scan` return its caller's `lastPos`
untouched and deliver nothing; consequently any `runSource` whose pre-scan
stages ended in state `st1` having delivered `bs` finishes, on a main-scan
read error, in exactly `st1` with exactly `bs` delivered — nothing from the
failed scan, and `lastPos` as it was when the scan began. -/
theorem scan_read_error_atomic (parse : Parser) (h o s : Bytes) (oc : RunOracle)
    (file arch : Bytes) (lastPos startPos : Nat) (st st1 : SrcState)
    (bs : List (List LogMsg)) (startP : Nat)
    (herr : oc.readErr = true)
    (hgo : preScan parse h o s oc file st = .go st1 bs startP) :
    scanFile parse h o s arch lastPos startPos true = (lastPos, none) ∧
    runSource parse h o s oc file st = ⟨st1, bs, false⟩ := by
  constructor
  · simp [scanFile]
  · unfold runSource
    rw [hgo, herr]
    simp [scanFile]

/-- C10 witness: a concrete tail (64-byte signature already captured,
`lastPos = 64`, file grown to 80 bytes) whose scan fails: the state and
deliveries are exactly those of the pre-scan stages, and `lastPos` stays 64. -/
theorem scan_read_error_atomic_witness :
    ({ readErr := true } : RunOracle).readErr = true ∧
    preScan testParse [104] [111] [115] { readErr := true } (List.replicate 80 97)
      ⟨List.replicate 64 97, 64⟩ =
      .go ⟨List.replicate 64 97, 64⟩ [] 64 ∧
    runSource testParse [104] [111] [115] { readErr := true } (List.replicate 80 97)
      ⟨List.replicate 64 97, 64⟩ = ⟨⟨List.replicate 64 97, 64⟩, [], false⟩ :=
  ⟨rfl, by decide,
   (scan_read_error_atomic testParse [104] [111] [115] { readErr := true }
     (List.replicate 80 97) [] 0 0 ⟨List.replicate 64 97, 64⟩
     ⟨List.replicate 64 97, 64⟩ [] 64 rfl (by decide)).2⟩

/-!
### C7 — error dampening

Claim: after a reset, `tick` returns true exactly on the calls whose
post-increment count is a power of two, the predicate being
`(count-1) & count == 0`, and `reset` zeroing the counter.
-/

/-- Bitwise and is idempotent. -/
theorem land_self_eq (d : Nat) : d &&& d = d :=
  Nat.eq_of_testBit_eq fun i => by rw [Nat.testBit_land]; exact Bool.and_self _

/-- `(2x+1) &&& (2y) = 2 (x &&& y)`. -/
theorem land_odd_even (x y : Nat) : (2 * x + 1) &&& (2 * y) = 2 * (x &&& y) := by
  have hb := Nat.land_bit true x false y
  simpa [Nat.bit] using hb

/-- `(2x) &&& (2y+1) = 2 (x &&& y)`. -/
theorem land_even_odd (x y : Nat) : (2 * x) &&& (2 * y + 1) = 2 * (x &&& y) := by
  have hb := Nat.land_bit false x true y
  simpa [Nat.bit] using hb

/-- The power-of-two test at the heart of `commonErrorLog.tick`:
for `c ≥ 1`, `(c-1) &&& c = 0` iff `c` is a power of two. -/
theorem land_pred_eq_zero_iff : ∀ c : Nat, 1 ≤ c → ((c - 1) &&& c = 0 ↔ ∃ k, c = 2 ^ k) := by
  intro c
  induction c using Nat.strong_induction_on with
  | _ c ih =>
    intro hc
    rcases Nat.lt_or_ge c 2 with h2 | h2
    · have hc1 : c = 1 := by omega
      subst hc1
      exact ⟨fun _ => ⟨0, by norm_num⟩, fun _ => by decide⟩
    · have hd1 : 1 ≤ c / 2 := by omega
      rcases Nat.mod_two_eq_zero_or_one c with hr | hr
      · -- c even, c = 2d with d ≥ 1
        obtain ⟨d, hd⟩ : ∃ d, c = 2 * d := ⟨c / 2, by omega⟩
        have hdge : 1 ≤ d := by omega
        subst hd
        rw [show 2 * d - 1 = 2 * (d - 1) + 1 by omega, land_odd_even (d - 1) d]
        have hih := ih d (by omega) (by omega)
        constructor
        · intro h0
          obtain ⟨k, hk⟩ := hih.mp (by omega)
          exact ⟨k + 1, by rw [pow_succ]; omega⟩
        · rintro ⟨k, hk⟩
          cases k with
          | zero => rw [pow_zero] at hk; omega
          | succ j =>
            rw [pow_succ] at hk
            have : d = 2 ^ j := by omega
            have := hih.mpr ⟨j, this⟩
            omega
      · -- c odd, c = 2d+1 with d ≥ 1
        obtain ⟨d, hd⟩ : ∃ d, c = 2 * d + 1 := ⟨c / 2, by omega⟩
        have hdge : 1 ≤ d := by omega
        subst hd
        rw [show 2 * d + 1 - 1 = 2 * d by omega, land_even_odd d d, land_self_eq]
        constructor
        · intro h0; omega
        · rintro ⟨k, hk⟩
          cases k with
          | zero => rw [pow_zero] at hk; omega
          | succ j => rw [pow_succ] at hk; omega

/-- After a reset, `n` ticks leave the counter for that kind at `n`
(for `n` within the `uint64` range). -/
theorem ticksOn_value (l : CommonErrorLog) (e : CommonError) :
    ∀ m : Nat, m < U64 → ticksOn (commonErrorLogReset l e) e m e = m := by
  intro m
  induction m with
  | zero => intro _; simp [ticksOn, commonErrorLogReset]
  | succ n ihn =>
    intro hm
    have hn := ihn (by omega)
    have hstep : ticksOn (commonErrorLogReset l e) e (n + 1) e =
        (ticksOn (commonErrorLogReset l e) e n e + 1) % U64 := by
      simp [ticksOn, commonErrorLogTick]
    rw [hstep, hn]
    exact Nat.mod_eq_of_lt hm

/-- C7 (confirmed).  For every error kind: `reset` zeroes the counter, and
the `n`-th `tick` after a reset (for any `n` reachable before the `uint64`
counter wraps, i.e. `1 ≤ n < 2^64`) returns true iff its post-increment count
`n` is a power of two — the emitted meta-log calls are exactly those at
counts {1, 2, 4, 8, 16, ...}. -/
theorem error_dampening (l : CommonErrorLog) (e : CommonError) (n : Nat)
    (h1 : 1 ≤ n) (h2 : n < U64) :
    commonErrorLogReset l e e = 0 ∧
    (commonErrorLogTick (ticksOn (commonErrorLogReset l e) e (n - 1)) e).1 e = n ∧
    ((commonErrorLogTick (ticksOn (commonErrorLogReset l e) e (n - 1)) e).2 = true ↔
      ∃ k, n = 2 ^ k) := by
  have hval : ticksOn (commonErrorLogReset l e) e (n - 1) e = n - 1 :=
    ticksOn_value l e (n - 1) (by omega)
  have hc : (ticksOn (commonErrorLogReset l e) e (n - 1) e + 1) % U64 = n := by
    rw [hval, show n - 1 + 1 = n by omega]
    exact Nat.mod_eq_of_lt h2
  refine ⟨by simp [commonErrorLogReset], ?_, ?_⟩
  · simp only [commonErrorLogTick, if_pos rfl]
    exact hc
  · simp only [commonErrorLogTick]
    rw [hc]
    have hpred : (n + U64 - 1) % U64 = n - 1 := by
      rw [show n + U64 - 1 = (n - 1) + U64 by omega, Nat.add_mod_right]
      exact Nat.mod_eq_of_lt (by omega)
    rw [hpred, beq_iff_eq]
    exact land_pred_eq_zero_iff n h1

/-- C7 witness: the fourth tick after a reset emits (4 = 2^2). -/
theorem error_dampening_witness :
    ((1 : Nat) ≤ 4 ∧ (4 : Nat) < U64) ∧
    (commonErrorLogReset (fun _ => 9) .fileOpen .fileOpen = 0 ∧
     (commonErrorLogTick (ticksOn (commonErrorLogReset (fun _ => 9) .fileOpen) .fileOpen (4 - 1)) .fileOpen).1 .fileOpen = 4 ∧
     ((commonErrorLogTick (ticksOn (commonErrorLogReset (fun _ => 9) .fileOpen) .fileOpen (4 - 1)) .fileOpen).2 = true ↔
       ∃ k, (4 : Nat) = 2 ^ k)) :=
  ⟨⟨by decide, by decide⟩,
   error_dampening (fun _ => 9) .fileOpen 4 (by decide) (by decide)⟩

/-!
### C8 — the per-source tailing invariant

Claim: at the end of every successful tailing scan,
`0 ≤ lastPos ≤ currentFileLength`, `firstLine` has length exactly 64 whenever
`lastPos > 0` and is empty whenever `lastPos = 0`; and this invariant is
preserved by every operation of the tailing engine (rewind reset, signature
capture, scan).

The first part holds, but the last clause does not: signature capture
(scraper.go 211-223) establishes the 64-byte `firstLine` while `lastPos` is
still 0 — the invariant's "empty whenever `lastPos = 0`" is re-established
only when the subsequent scan advances `lastPos`, so the capture step in
isolation (and a full `runSource` pass whose scan then fails) leaves a state
with `lastPos = 0` and a 64-byte `firstLine`.
-/

/-- C8 counterexample.  From the invariant-satisfying fresh state
`⟨[], 0⟩` over a 70-byte file, signature capture alone produces
`⟨64 bytes, 0⟩`, which violates the invariant; and a whole `runSource` pass
whose main scan hits a read error ends in exactly that state. -/
theorem tailing_invariant_counterexample :
    Inv ⟨[], 0⟩ ∧
    captureStage {} (List.replicate 70 97) ⟨[], 0⟩ [] =
      .go ⟨List.replicate 64 97, 0⟩ [] 0 ∧
    ¬ Inv ⟨List.replicate 64 97, 0⟩ ∧
    (runSource testParse [104] [111] [115] { readErr := true }
      (List.replicate 70 97) ⟨[], 0⟩).state = ⟨List.replicate 64 97, 0⟩ := by
  refine ⟨by decide, by decide, by decide, by decide⟩

/-- The roll stage leaves the state either untouched — and then there was no
rewind, so `lastPos ≤ file.length` — or reset to `⟨[], 0⟩`. -/
theorem rollStage_go (parse : Parser) (h o s : Bytes) (oc : RunOracle)
    (file : Bytes) (st st1 : SrcState) (bs : List (List LogMsg)) (sp : Nat)
    (hgo : rollStage parse h o s oc file st = .go st1 bs sp) :
    (st1 = st ∧ st.lastPos ≤ file.length) ∨ st1 = ⟨[], 0⟩ := by
  unfold rollStage at hgo
  repeat' split at hgo
  all_goals simp at hgo
  all_goals first
    | exact Or.inr hgo.1.symm
    | exact Or.inr hgo.1
    | (rename_i hnl
       exact Or.inl ⟨hgo.1.symm, by omega⟩)

/-- The capture stage, from an invariant state whose position is within the
file, hands the scan a state with a 64-byte signature, a position still within
the (non-empty) file. -/
theorem captureStage_go (oc : RunOracle) (file : Bytes) (st1 st2 : SrcState)
    (bs bs2 : List (List LogMsg)) (sp : Nat)
    (hgo : captureStage oc file st1 bs = .go st2 bs2 sp)
    (hInv : Inv st1) (hle : st1.lastPos ≤ file.length) :
    st2.firstLine.length = 64 ∧ 0 < file.length ∧ st2.lastPos ≤ file.length := by
  unfold captureStage at hgo
  split at hgo
  · rename_i hzero
    split at hgo
    · exact absurd hgo (by simp)
    · rename_i hlen
      split at hgo
      · exact absurd hgo (by simp)
      · injection hgo with h1 h2 h3
        refine ⟨?_, by omega, ?_⟩
        · rw [← h1]
          show (file.take 64).length = 64
          rw [List.length_take]
          omega
        · rw [← h1]
          show st1.lastPos ≤ file.length
          exact hle
  · rename_i hnz
    injection hgo with h1 h2 h3
    subst h1
    have hpos : 0 < st1.lastPos := Nat.pos_of_ne_zero hnz
    exact ⟨hInv.1 hpos, by omega, hle⟩

/-- Decomposition of a completed pre-scan into its stage results. -/
theorem preScan_go_decomp (parse : Parser) (h o s : Bytes) (oc : RunOracle)
    (file : Bytes) (st st1 : SrcState) (bs : List (List LogMsg)) (sp : Nat)
    (hps : preScan parse h o s oc file st = .go st1 bs sp) :
    (∃ stR bsR spR spC, rollStage parse h o s oc file st = .go stR bsR spR ∧
       captureStage oc file stR bsR = .go st1 bs spC) ∧
    sp = (if oc.posSeekOk then st1.lastPos else file.length) := by
  unfold preScan at hps
  split at hps
  · simp at hps
  · rename_i stR bsR spR hR
    split at hps
    · simp at hps
    · rename_i stC bsC spC hC
      injection hps with h1 h2 h3
      subst h1; subst h2
      exact ⟨⟨stR, bsR, spR, spC, hR, hC⟩, h3.symm⟩

/-- C8 amended: `0 ≤ lastPos` always (positions are non-negative); at the end
of every `runSource` whose scan completed, the state satisfies the invariant
and `lastPos ≤ currentFileLength`; the invariant is preserved by the rewind
reset and by every complete engine pass with a completed scan — but NOT by
signature capture in isolation, which installs the 64-byte `firstLine` while
`lastPos` is still 0 (see the counterexample). -/
theorem tailing_invariant_on_success (parse : Parser) (h o s : Bytes)
    (oc : RunOracle) (file : Bytes) (st : SrcState) (hInv : Inv st)
    (hdone : (runSource parse h o s oc file st).scanCompleted = true) :
    Inv (runSource parse h o s oc file st).state ∧
    (runSource parse h o s oc file st).state.lastPos ≤ file.length ∧
    Inv ⟨[], 0⟩ := by
  have hInvFresh : Inv (⟨[], 0⟩ : SrcState) :=
    ⟨fun hpos => absurd hpos (by simp), fun _ => rfl⟩
  cases hps : preScan parse h o s oc file st with
  | abort st1 bs =>
    rw [show runSource parse h o s oc file st = ⟨st1, bs, false⟩ by
      unfold runSource; rw [hps]] at hdone
    exact absurd hdone (by simp)
  | go st1 bs sp =>
    obtain ⟨⟨stR, bsR, spR, spC, hR, hC⟩, hsp⟩ :=
      preScan_go_decomp parse h o s oc file st st1 bs sp hps
    have hroll := rollStage_go parse h o s oc file st stR bsR spR hR
    have hInvR : Inv stR ∧ stR.lastPos ≤ file.length := by
      rcases hroll with ⟨heq, hle⟩ | heq
      · rw [heq]; exact ⟨hInv, hle⟩
      · rw [heq]; exact ⟨hInvFresh, Nat.zero_le _⟩
    have hcap := captureStage_go oc file stR st1 bsR bs spC hC hInvR.1 hInvR.2
    have hnoerr : oc.readErr = false := by
      rw [show runSource parse h o s oc file st =
          ⟨{ st1 with lastPos := (scanFile parse h o s file st1.lastPos sp oc.readErr).1 },
           bs ++ (scanFile parse h o s file st1.lastPos sp oc.readErr).2.toList,
           !oc.readErr⟩ by
        unfold runSource; rw [hps]] at hdone
      simpa using hdone
    have hrun : runSource parse h o s oc file st =
        ⟨{ st1 with lastPos := (scanFile parse h o s file st1.lastPos sp false).1 },
         bs ++ (scanFile parse h o s file st1.lastPos sp false).2.toList,
         !(false : Bool)⟩ := by
      unfold runSource; rw [hps, hnoerr]
    have hsple : sp ≤ file.length := by
      rw [hsp]
      split <;> omega
    have hfst : (scanFile parse h o s file st1.lastPos sp false).1 = file.length := by
      unfold scanFile
      simp only [if_neg (by simp : ¬ (false : Bool) = true)]
      omega
    have hlenpos := hcap.2.1
    rw [hrun]
    refine ⟨⟨fun _ => hcap.1, fun hzero => ?_⟩, ?_, hInvFresh⟩
    · exfalso
      have hzero2 : file.length = 0 := by
        rw [← hfst]; exact hzero
      omega
    · show (scanFile parse h o s file st1.lastPos sp false).1 ≤ file.length
      exact le_of_eq hfst

/-- C8 amended witness: a fresh source over a 70-byte file, scan succeeding. -/
theorem tailing_invariant_on_success_witness :
    (Inv ⟨[], 0⟩ ∧
     (runSource testParse [104] [111] [115] {} (List.replicate 70 97)
       ⟨[], 0⟩).scanCompleted = true) ∧
    (Inv (runSource testParse [104] [111] [115] {} (List.replicate 70 97)
       ⟨[], 0⟩).state ∧
     (runSource testParse [104] [111] [115] {} (List.replicate 70 97)
       ⟨[], 0⟩).state.lastPos ≤ (List.replicate 70 97 : Bytes).length ∧
     Inv ⟨[], 0⟩) :=
  ⟨⟨by decide, by decide⟩,
   tailing_invariant_on_success testParse [104] [111] [115] {}
     (List.replicate 70 97) ⟨[], 0⟩ (by decide) (by decide)⟩

end Logscraper
